import Mathlib

/-!
Shallow embedding of the `mprofile` snapshot-statistics engine
(`src/mprofile/__init__.py`) and proofs about it.

Conventions of the embedding:
* Python integers are `Int`, Python strings are `String`.
* A raw frame, as delivered by the capture collaborator, is the 4-tuple
  `(name, filename, firstlineno, lineno)`; a raw trace is `(size, frames)`.
  Per the capture contract, the raw frame sequence lists frames
  most-recent-last.
* Fallible Python code (raising `ValueError`, `TypeError`, `IndexError`)
  is embedded with `Except PyErr`.
* The float arithmetic of `_scale_heap_sample` is modelled with exact real
  arithmetic (`Real.exp`), and Python's `int()` truncation toward zero by
  `pyTrunc`; these definitions are the only noncomputable ones.
* The `tracebacks` memoization dict of `_group_by` caches the derived key,
  which is a pure function of the cache key, so it is semantically
  transparent and omitted from the embedded grouping.
* Python's platform-dependent `os.path.normcase` is modelled for POSIX,
  where it is the identity.
-/

namespace MProfile

/-- The Python exception kinds the embedded code can raise. -/
inductive PyErr : Type where
  | valueError : PyErr
  | typeError : PyErr
  | indexError : PyErr
deriving DecidableEq, Repr

instance exceptDecEq {ε α : Type} [DecidableEq ε] [DecidableEq α] : DecidableEq (Except ε α) :=
  fun a b =>
    match a, b with
    | .error e, .error e' =>
        if h : e = e' then isTrue (by rw [h]) else isFalse (fun hc => by cases hc; exact h rfl)
    | .error _, .ok _ => isFalse (fun hc => by cases hc)
    | .ok _, .error _ => isFalse (fun hc => by cases hc)
    | .ok x, .ok y =>
        if h : x = y then isTrue (by rw [h]) else isFalse (fun hc => by cases hc; exact h rfl)

/-- A raw frame tuple `(name, filename, firstlineno, lineno)` as produced by
the capture collaborator. -/
abbrev RawFrame : Type := String × String × Int × Int

/-- The filename component of a raw frame tuple (`frame[1]` in Python). -/
def RawFrame.filename (f : RawFrame) : String := f.2.1

/-- The lineno component of a raw frame tuple (`frame[3]` in Python). -/
def RawFrame.lineno (f : RawFrame) : Int := f.2.2.2

/-- A raw trace tuple `(size, traceback)`; the traceback lists its raw
frames most-recent-last (capture order). -/
abbrev RawTrace : Type := Int × List RawFrame

/-- `Frame`: one stack location, as exposed by `Traceback.__getitem__`. -/
structure Frame : Type where
  name : String
  filename : String
  firstlineno : Int
  lineno : Int
deriving DecidableEq, Repr

/-- Build a `Frame` from a raw frame tuple (the `Frame.__init__` wrapper). -/
def Frame.ofRaw (f : RawFrame) : Frame :=
  ⟨f.1, f.2.1, f.2.2.1, f.2.2.2⟩

/-- `Traceback`: the stored frame sequence. `frames` is the value of the
`_frames` slot, i.e. the sequence already reversed into
most-recent-frame-first order by `Traceback.__init__`. -/
structure Traceback : Type where
  frames : List RawFrame
deriving DecidableEq, Repr

/-- `Traceback.__init__`: stores `tuple(reversed(frames))`, turning the
most-recent-last capture order into most-recent-first storage. -/
def Traceback.ofCapture (frames : List RawFrame) : Traceback :=
  ⟨frames.reverse⟩

/-- `Traceback.__len__`. -/
def Traceback.length (tb : Traceback) : Nat := tb.frames.length

/-- `Traceback.__getitem__` with an integer index: wraps the stored raw
frame in a `Frame`. -/
def Traceback.get (tb : Traceback) (i : Fin tb.frames.length) : Frame :=
  Frame.ofRaw (tb.frames.get i)

/-- `Statistic`: aggregated size/count for one grouping key. -/
structure Statistic : Type where
  traceback : Traceback
  size : Int
  count : Int
deriving DecidableEq, Repr

/-- `StatisticDiff`: size/count of the new snapshot plus diffs to the old. -/
structure StatisticDiff : Type where
  traceback : Traceback
  size : Int
  size_diff : Int
  count : Int
  count_diff : Int
deriving DecidableEq, Repr

/-- Lexicographic comparison of two lists given a comparison of elements;
mirrors Python tuple comparison (a strict prefix is smaller). -/
def cmpList {α : Type} (c : α → α → Ordering) : List α → List α → Ordering
  | [], [] => .eq
  | [], _ :: _ => .lt
  | _ :: _, [] => .gt
  | a :: as, b :: bs =>
    match c a b with
    | .eq => cmpList c as bs
    | o => o

/-- Python comparison of raw frame tuples: lexicographic over the four
components. -/
def cmpRawFrame (a b : RawFrame) : Ordering :=
  (compare a.1 b.1).then
    ((compare a.2.1 b.2.1).then
      ((compare a.2.2.1 b.2.2.1).then (compare a.2.2.2 b.2.2.2)))

/-- `Traceback.__lt__`/`__eq__`: comparison of the stored frame tuples. -/
def cmpTraceback (a b : Traceback) : Ordering :=
  cmpList cmpRawFrame a.frames b.frames

/-- `Statistic._sort_key`: the tuple `(size, count, traceback)`, compared
lexicographically. -/
def Statistic.cmpSortKey (a b : Statistic) : Ordering :=
  (compare a.size b.size).then
    ((compare a.count b.count).then (cmpTraceback a.traceback b.traceback))

/-- The order used by `statistics`: `sort(reverse=True, key=_sort_key)`,
i.e. `a` may precede `b` iff `a`'s key is not smaller than `b`'s. -/
def statGE (a b : Statistic) : Prop := Statistic.cmpSortKey a b ≠ .lt

instance : DecidableRel statGE := fun _ _ => instDecidableNot

/-- `StatisticDiff._sort_key`: `(abs size_diff, size, abs count_diff,
count, traceback)`, compared lexicographically. -/
def StatisticDiff.cmpSortKey (a b : StatisticDiff) : Ordering :=
  (compare a.size_diff.natAbs b.size_diff.natAbs).then
    ((compare a.size b.size).then
      ((compare a.count_diff.natAbs b.count_diff.natAbs).then
        ((compare a.count b.count).then (cmpTraceback a.traceback b.traceback))))

/-- The order used by `compare_to`: descending in `StatisticDiff._sort_key`. -/
def diffGE (a b : StatisticDiff) : Prop := StatisticDiff.cmpSortKey a b ≠ .lt

instance : DecidableRel diffGE := fun _ _ => instDecidableNot

/-- `dict.pop(key, None)` on an insertion-ordered association list: the
value found (if any) and the list with that first matching entry removed. -/
def popFirst (key : Traceback) :
    List (Traceback × Statistic) → Option Statistic × List (Traceback × Statistic)
  | [] => (none, [])
  | (k, st) :: rest =>
    if k = key then (some st, rest)
    else
      let r := popFirst key rest
      (r.1, (k, st) :: r.2)

/-- `_compare_grouped_stats`: first loop over the new grouping (popping
matched keys from the old one), then a loop over the surviving old keys. -/
def compare_grouped_stats :
    List (Traceback × Statistic) → List (Traceback × Statistic) → List StatisticDiff
  | old_group, [] =>
    old_group.map (fun p => ⟨p.1, 0, -p.2.size, 0, -p.2.count⟩)
  | old_group, (tb, st) :: rest =>
    match popFirst tb old_group with
    | (some previous, old') =>
      ⟨tb, st.size, st.size - previous.size, st.count, st.count - previous.count⟩ ::
        compare_grouped_stats old' rest
    | (none, _) =>
      ⟨tb, st.size, st.size, st.count, st.count⟩ :: compare_grouped_stats old_group rest

/-- One step of glob bracket parsing: split the pattern at the first `]`,
returning the set contents and the remainder, or `none` if `]` is missing. -/
def splitBracket : List Char → Option (List Char × List Char)
  | [] => none
  | ']' :: cs => some ([], cs)
  | c :: cs =>
    match splitBracket cs with
    | none => none
    | some (a, b) => some (c :: a, b)

/-- Membership of a character in a glob bracket set, with `a-z` ranges. -/
def inSet : List Char → Char → Bool
  | [], _ => false
  | a :: '-' :: b :: rest, c => (a ≤ c && c ≤ b) || inSet rest c
  | a :: rest, c => (a = c) || inSet rest c

/-- Fuel-bounded core of `fnmatch`-style glob matching over `*`, `?`,
`[...]`, `[!...]` and literals. Every recursive call strictly shrinks
pattern-length + string-length, so `fuel = |pattern| + |string| + 1` is
always sufficient. -/
def globFuel : Nat → List Char → List Char → Bool
  | 0, _, _ => false
  | _ + 1, [], s => s.isEmpty
  | fuel + 1, '*' :: ps, s =>
    globFuel fuel ps s ||
      (match s with
       | [] => false
       | _ :: s' => globFuel fuel ('*' :: ps) s')
  | fuel + 1, '?' :: ps, s =>
    (match s with
     | [] => false
     | _ :: s' => globFuel fuel ps s')
  | fuel + 1, '[' :: ps, s =>
    let neg : Bool := match ps with | '!' :: _ => true | _ => false
    let ps1 : List Char := match ps with | '!' :: r => r | _ => ps
    let lead : List Char := match ps1 with | ']' :: _ => [']'] | _ => []
    let ps2 : List Char := match ps1 with | ']' :: r => r | _ => ps1
    (match splitBracket ps2 with
     | none =>
       -- no closing bracket: `[` is a literal character
       (match s with
        | '[' :: s' => globFuel fuel ps s'
        | _ => false)
     | some (content, rest) =>
       (match s with
        | [] => false
        | c :: s' => (Bool.xor (inSet (lead ++ content) c) neg) && globFuel fuel rest s'))
  | fuel + 1, p :: ps, s =>
    (match s with
     | [] => false
     | c :: s' => (p = c) && globFuel fuel ps s')

/-- `fnmatch.fnmatch(name, pattern)` on POSIX (where `normcase` is the
identity): full-string glob match. -/
def fnmatch (name : String) (pattern : String) : Bool :=
  globFuel (pattern.length + name.length + 1) pattern.data name.data

/-- `_normalize_filename`: POSIX `normcase` is the identity; a trailing
`.pyc`/`.pyo` suffix loses its final character. (Stated over the
character lists so that it evaluates by kernel reduction.) -/
def normalize_filename (filename : String) : String :=
  if (".pyc".data.isSuffixOf filename.data) || (".pyo".data.isSuffixOf filename.data) then
    String.mk filename.data.dropLast
  else filename

/-- `Filter`: predicate over a traceback. `filename_pattern` is stored
already normalized (`Filter.__init__`). -/
structure Filter : Type where
  inclusive : Bool
  filename_pattern : String
  lineno : Option Int
  all_frames : Bool
deriving DecidableEq, Repr

/-- `Filter.__init__`: normalizes the filename pattern. -/
def Filter.make (inclusive : Bool) (filename_pattern : String) (lineno : Option Int)
    (all_frames : Bool) : Filter :=
  ⟨inclusive, normalize_filename filename_pattern, lineno, all_frames⟩

/-- The private `Filter.__match_frame`: glob-match the normalized filename;
if `lineno` is set the frame's line must equal it exactly. -/
def Filter.match_frame_raw (f : Filter) (filename : String) (lineno : Int) : Bool :=
  if ¬ fnmatch (normalize_filename filename) f.filename_pattern then false
  else
    match f.lineno with
    | none => true
    | some l => lineno = l

/-- `Filter._match_frame`: the raw match XORed with `not inclusive`. -/
def Filter.match_frame (f : Filter) (filename : String) (lineno : Int) : Bool :=
  Bool.xor (f.match_frame_raw filename lineno) (!f.inclusive)

/-- `Filter._match_traceback`. The argument is the raw (capture-order,
most-recent-last) frame tuple of a trace, exactly as in
`Snapshot._filter_trace`; indexing an empty tuple raises `IndexError`. -/
def Filter.match_traceback (f : Filter) (traceback : List RawFrame) : Except PyErr Bool :=
  if f.all_frames then
    .ok (if traceback.any (fun fr => f.match_frame_raw fr.filename fr.lineno)
         then f.inclusive else !f.inclusive)
  else
    match traceback with
    | [] => .error .indexError
    | fr :: _ => .ok (f.match_frame fr.filename fr.lineno)

/-- `Snapshot`: raw traces plus the two capture parameters. `traces` holds
the raw trace tuples (the `_Traces._traces` slot). -/
structure Snapshot : Type where
  traces : List RawTrace
  traceback_limit : Int
  sample_rate : Int
deriving DecidableEq, Repr

/-- The argument passed to `filter_traces`: either an iterable of filters
or a non-iterable Python value. -/
inductive FiltersArg : Type where
  | iterable : List Filter → FiltersArg
  | notIterable : FiltersArg
deriving DecidableEq

/-- Short-circuiting `any(f._match_traceback(tb) for f in fs)`. -/
def anyMatch (fs : List Filter) (tb : List RawFrame) : Except PyErr Bool :=
  match fs with
  | [] => .ok false
  | f :: rest => do
    let b ← f.match_traceback tb
    if b then pure true else anyMatch rest tb

/-- Short-circuiting `any(not f._match_traceback(tb) for f in fs)`. -/
def anyNotMatch (fs : List Filter) (tb : List RawFrame) : Except PyErr Bool :=
  match fs with
  | [] => .ok false
  | f :: rest => do
    let b ← f.match_traceback tb
    if !b then pure true else anyNotMatch rest tb

/-- `Snapshot._filter_trace`: include filters first (keep only if some
matches), then exclude filters (drop if any match evaluates to `False`). -/
def filter_trace (include_filters exclude_filters : List Filter) (trace : RawTrace) :
    Except PyErr Bool := do
  let keep ← (if include_filters.isEmpty then pure true else anyMatch include_filters trace.2)
  if keep = false then pure false
  else do
    let drop ← (if exclude_filters.isEmpty then pure false
                else anyNotMatch exclude_filters trace.2)
    pure (!drop)

/-- The list comprehension in `filter_traces`: keep the traces for which
`_filter_trace` returns `True`, evaluating in order. -/
def filterTracesList (include_filters exclude_filters : List Filter) :
    List RawTrace → Except PyErr (List RawTrace)
  | [] => .ok []
  | t :: rest => do
    let keep ← filter_trace include_filters exclude_filters t
    let others ← filterTracesList include_filters exclude_filters rest
    pure (if keep then t :: others else others)

/-- `Snapshot.filter_traces`: `TypeError` on a non-iterable argument, an
identity copy on an empty filter list, otherwise split the filters by
`inclusive` and keep the surviving traces in a new snapshot. -/
def Snapshot.filter_traces (s : Snapshot) (arg : FiltersArg) : Except PyErr Snapshot :=
  match arg with
  | .notIterable => .error .typeError
  | .iterable filters =>
    if filters.isEmpty then .ok ⟨s.traces, s.traceback_limit, s.sample_rate⟩
    else do
      let include_filters := filters.filter (fun f => f.inclusive)
      let exclude_filters := filters.filter (fun f => !f.inclusive)
      let new_traces ← filterTracesList include_filters exclude_filters s.traces
      pure ⟨new_traces, s.traceback_limit, s.sample_rate⟩

/-- The `stats` accumulator of `_group_by`, as an insertion-ordered
association list mirroring the Python dict: `stat.size += size;
stat.count += 1` on a hit, `stats[tb] = Statistic(tb, size, 1)` on a miss. -/
def addToStats (stats : List (Traceback × Statistic)) (key : Traceback) (size : Int) :
    List (Traceback × Statistic) :=
  match stats with
  | [] => [(key, ⟨key, size, 1⟩)]
  | (k, st) :: rest =>
    if k = key then (k, ⟨st.traceback, st.size + size, st.count + 1⟩) :: rest
    else (k, st) :: addToStats rest key size

/-- Non-cumulative key derivation of `_group_by`: the full raw traceback
for `"traceback"`, its first raw element for `"lineno"`, and a synthetic
frame with just the filename of its first raw element for `"filename"`
(raising `IndexError` when the raw traceback is empty). The derived frame
list is wrapped by the `Traceback` constructor. -/
def deriveKey (key_type : String) (trace_traceback : List RawFrame) : Except PyErr Traceback :=
  if key_type = "traceback" then .ok (Traceback.ofCapture trace_traceback)
  else if key_type = "lineno" then .ok (Traceback.ofCapture (trace_traceback.take 1))
  else
    match trace_traceback with
    | [] => .error .indexError
    | f :: _ => .ok (Traceback.ofCapture [("", f.filename, 0, 0)])

/-- The non-cumulative accumulation loop of `_group_by`. -/
def groupNoncum (key_type : String) (traces : List RawTrace)
    (stats : List (Traceback × Statistic)) : Except PyErr (List (Traceback × Statistic)) :=
  match traces with
  | [] => .ok stats
  | (size, trace_traceback) :: rest => do
    let key ← deriveKey key_type trace_traceback
    groupNoncum key_type rest (addToStats stats key size)

/-- Cumulative key derivation of `_group_by`, applied to every raw frame
of a traceback: the frame itself for `"lineno"`, a synthetic frame with
just its filename for `"filename"`. -/
def deriveKeyCum (key_type : String) (frame : RawFrame) : Traceback :=
  if key_type = "lineno" then Traceback.ofCapture [frame]
  else Traceback.ofCapture [("", frame.filename, 0, 0)]

/-- Inner loop of cumulative `_group_by`: accumulate one trace's size into
the key of every frame of its traceback. -/
def groupCumFrames (key_type : String) (size : Int) (frames : List RawFrame)
    (stats : List (Traceback × Statistic)) : List (Traceback × Statistic) :=
  frames.foldl (fun acc frame => addToStats acc (deriveKeyCum key_type frame) size) stats

/-- The cumulative accumulation loop of `_group_by`. -/
def groupCum (key_type : String) (traces : List RawTrace)
    (stats : List (Traceback × Statistic)) : List (Traceback × Statistic) :=
  traces.foldl (fun acc t => groupCumFrames key_type t.1 t.2 acc) stats

/-- `_group_by` before the final `_scale_heap_samples` call: the argument
checks, then the cumulative or non-cumulative accumulation loop. -/
def groupByRaw (key_type : String) (cumulative : Bool) (traces : List RawTrace) :
    Except PyErr (List (Traceback × Statistic)) :=
  if key_type ≠ "traceback" ∧ key_type ≠ "filename" ∧ key_type ≠ "lineno" then
    .error .valueError
  else if cumulative ∧ key_type ≠ "lineno" ∧ key_type ≠ "filename" then
    .error .valueError
  else if cumulative then .ok (groupCum key_type traces [])
  else groupNoncum key_type traces []

/-- Python `int()` on a float: truncation toward zero. -/
noncomputable def pyTrunc (x : ℝ) : Int :=
  if 0 ≤ x then ⌊x⌋ else -⌊-x⌋

/-- The scale factor of `_scale_heap_sample`:
`1 / (1 - exp(-(size/count) / sample_rate))`, with the float arithmetic
modelled exactly over the reals. -/
noncomputable def scaleFactor (sample_rate size count : Int) : ℝ :=
  1 / (1 - Real.exp (-(((size : ℝ) / (count : ℝ)) / (sample_rate : ℝ))))

/-- `Snapshot._scale_heap_sample`: identity on empty statistics and when
`sample_rate <= 1`; otherwise multiply size and count by the scale factor
and truncate to integers. -/
noncomputable def Snapshot.scale_heap_sample (s : Snapshot) (stat : Statistic) : Statistic :=
  if stat.count = 0 ∨ stat.size = 0 then stat
  else if s.sample_rate ≤ 1 then stat
  else
    { stat with
      size := pyTrunc (scaleFactor s.sample_rate stat.size stat.count * (stat.size : ℝ)),
      count := pyTrunc (scaleFactor s.sample_rate stat.size stat.count * (stat.count : ℝ)) }

/-- `Snapshot._scale_heap_samples`: rescale every statistic in the
grouping, keys unchanged. -/
noncomputable def Snapshot.scale_heap_samples (s : Snapshot)
    (stats : List (Traceback × Statistic)) : List (Traceback × Statistic) :=
  stats.map (fun p => (p.1, s.scale_heap_sample p.2))

/-- `Snapshot._group_by`: the raw grouping followed by sampling-bias
correction. -/
noncomputable def Snapshot.group_by (s : Snapshot) (key_type : String) (cumulative : Bool) :
    Except PyErr (List (Traceback × Statistic)) :=
  (groupByRaw key_type cumulative s.traces).map s.scale_heap_samples

/-- `Snapshot.statistics`: group, take the dict values in insertion
order, and stable-sort descending by `Statistic._sort_key`. -/
noncomputable def Snapshot.statistics (s : Snapshot) (key_type : String) (cumulative : Bool) :
    Except PyErr (List Statistic) :=
  (s.group_by key_type cumulative).map
    (fun grouped => List.insertionSort statGE (grouped.map Prod.snd))

/-- `Snapshot.compare_to`: group both snapshots, diff the groupings, and
stable-sort descending by `StatisticDiff._sort_key`. -/
noncomputable def Snapshot.compare_to (s old_snapshot : Snapshot) (key_type : String)
    (cumulative : Bool) : Except PyErr (List StatisticDiff) := do
  let new_group ← s.group_by key_type cumulative
  let old_group ← old_snapshot.group_by key_type cumulative
  pure (List.insertionSort diffGE (compare_grouped_stats old_group new_group))

/-- Computable form of `statistics` for snapshots where the sampling
correction is the identity (`sample_rate <= 1`); see
`statistics_eq_raw`. -/
def statisticsRaw (s : Snapshot) (key_type : String) (cumulative : Bool) :
    Except PyErr (List Statistic) :=
  (groupByRaw key_type cumulative s.traces).map
    (fun grouped => List.insertionSort statGE (grouped.map Prod.snd))

/-- Computable form of `compare_to` for snapshots where the sampling
correction is the identity; see `compare_to_eq_raw`. -/
def compareToRaw (s old_snapshot : Snapshot) (key_type : String) (cumulative : Bool) :
    Except PyErr (List StatisticDiff) := do
  let new_group ← groupByRaw key_type cumulative s.traces
  let old_group ← groupByRaw key_type cumulative old_snapshot.traces
  pure (List.insertionSort diffGE (compare_grouped_stats old_group new_group))

/-- Total size over a list of statistics (before/after grouping). -/
def totalSize (l : List Statistic) : Int := (l.map Statistic.size).sum

/-- Total count over a list of statistics. -/
def totalCount (l : List Statistic) : Int := (l.map Statistic.count).sum

/-- The values of a grouping, in dict insertion order. -/
def statValues (g : List (Traceback × Statistic)) : List Statistic := g.map Prod.snd

theorem scale_heap_sample_of_rate_le_one (s : Snapshot) (stat : Statistic)
    (h : s.sample_rate ≤ 1) : s.scale_heap_sample stat = stat := by
  unfold Snapshot.scale_heap_sample
  by_cases h0 : stat.count = 0 ∨ stat.size = 0
  · rw [if_pos h0]
  · rw [if_neg h0, if_pos h]

theorem scale_heap_samples_of_rate_le_one (s : Snapshot)
    (g : List (Traceback × Statistic)) (h : s.sample_rate ≤ 1) :
    s.scale_heap_samples g = g := by
  unfold Snapshot.scale_heap_samples
  have : (fun p : Traceback × Statistic => (p.1, s.scale_heap_sample p.2)) = fun p => p := by
    funext p
    rw [scale_heap_sample_of_rate_le_one s p.2 h]
  rw [this, List.map_id']

theorem group_by_eq_raw (s : Snapshot) (key_type : String) (cumulative : Bool)
    (h : s.sample_rate ≤ 1) :
    s.group_by key_type cumulative = groupByRaw key_type cumulative s.traces := by
  unfold Snapshot.group_by
  cases hg : groupByRaw key_type cumulative s.traces with
  | error e => rfl
  | ok g => simp [Except.map, scale_heap_samples_of_rate_le_one s g h]

theorem statistics_eq_raw (s : Snapshot) (key_type : String) (cumulative : Bool)
    (h : s.sample_rate ≤ 1) :
    s.statistics key_type cumulative = statisticsRaw s key_type cumulative := by
  unfold Snapshot.statistics statisticsRaw
  rw [group_by_eq_raw s key_type cumulative h]

theorem compare_to_eq_raw (s old_snapshot : Snapshot) (key_type : String) (cumulative : Bool)
    (hs : s.sample_rate ≤ 1) (ho : old_snapshot.sample_rate ≤ 1) :
    s.compare_to old_snapshot key_type cumulative =
      compareToRaw s old_snapshot key_type cumulative := by
  unfold Snapshot.compare_to compareToRaw
  rw [group_by_eq_raw s key_type cumulative hs,
    group_by_eq_raw old_snapshot key_type cumulative ho]

theorem except_bind_ok {ε α β : Type} (a : α) (f : α → Except ε β) :
    (Except.ok a : Except ε α) >>= f = f a := rfl

theorem except_bind_err {ε α β : Type} (e : ε) (f : α → Except ε β) :
    (Except.error e : Except ε α) >>= f = Except.error e := rfl

theorem addToStats_size (stats : List (Traceback × Statistic)) (key : Traceback) (size : Int) :
    totalSize (statValues (addToStats stats key size)) =
      totalSize (statValues stats) + size := by
  induction stats with
  | nil => simp [addToStats, statValues, totalSize]
  | cons p rest ih =>
    obtain ⟨k, st⟩ := p
    by_cases h : k = key
    · simp only [addToStats, if_pos h, statValues, totalSize, List.map_cons, List.sum_cons]
      omega
    · simp only [addToStats, if_neg h, statValues, totalSize, List.map_cons,
        List.sum_cons] at ih ⊢
      omega

theorem addToStats_count (stats : List (Traceback × Statistic)) (key : Traceback) (size : Int) :
    totalCount (statValues (addToStats stats key size)) =
      totalCount (statValues stats) + 1 := by
  induction stats with
  | nil => simp [addToStats, statValues, totalCount]
  | cons p rest ih =>
    obtain ⟨k, st⟩ := p
    by_cases h : k = key
    · simp only [addToStats, if_pos h, statValues, totalCount, List.map_cons, List.sum_cons]
      omega
    · simp only [addToStats, if_neg h, statValues, totalCount, List.map_cons,
        List.sum_cons] at ih ⊢
      omega

theorem groupNoncum_ok_sums (key_type : String) (traces : List RawTrace)
    (stats : List (Traceback × Statistic))
    (hk : ∀ t ∈ traces, ∃ k, deriveKey key_type t.2 = .ok k) :
    ∃ out, groupNoncum key_type traces stats = .ok out ∧
      totalSize (statValues out) = totalSize (statValues stats) + (traces.map Prod.fst).sum ∧
      totalCount (statValues out) = totalCount (statValues stats) + traces.length := by
  induction traces generalizing stats with
  | nil => exact ⟨stats, rfl, by simp, by simp⟩
  | cons t rest ih =>
    obtain ⟨size, tb⟩ := t
    obtain ⟨k, hk0⟩ := hk (size, tb) (by simp)
    obtain ⟨out, hout, hs, hc⟩ :=
      ih (addToStats stats k size) (fun t ht => hk t (by simp [ht]))
    refine ⟨out, ?_, ?_, ?_⟩
    · simpa only [groupNoncum, hk0, except_bind_ok] using hout
    · rw [hs, addToStats_size]
      simp only [List.map_cons, List.sum_cons]
      omega
    · rw [hc, addToStats_count]
      simp only [List.length_cons]
      push_cast
      omega

/-- C1: statistics("traceback", cumulative=false) on a snapshot with
`sample_rate <= 1` conserves totals: the sizes of the returned statistics
sum to the sum of the raw trace sizes and their counts sum to the number
of raw traces. -/
theorem grouping_conservation (traces : List RawTrace) (limit rate : Int)
    (hrate : rate ≤ 1) :
    ∃ stats, Snapshot.statistics ⟨traces, limit, rate⟩ "traceback" false = .ok stats ∧
      totalSize stats = (traces.map Prod.fst).sum ∧
      totalCount stats = traces.length := by
  obtain ⟨out, hout, hs, hc⟩ :=
    groupNoncum_ok_sums "traceback" traces []
      (fun t _ => ⟨Traceback.ofCapture t.2, rfl⟩)
  have hraw : groupByRaw "traceback" false traces = .ok out := by
    have : groupByRaw "traceback" false traces = groupNoncum "traceback" traces [] := by
      simp [groupByRaw]
    rw [this, hout]
  refine ⟨List.insertionSort statGE (statValues out), ?_, ?_, ?_⟩
  · rw [statistics_eq_raw _ _ _ hrate]
    simp [statisticsRaw, hraw, Except.map, statValues]
  · have hperm := List.perm_insertionSort statGE (statValues out)
    have := (hperm.map Statistic.size).sum_eq
    simp only [totalSize] at hs ⊢
    rw [this, hs]
    simp [statValues, totalSize]
  · have hperm := List.perm_insertionSort statGE (statValues out)
    have := (hperm.map Statistic.count).sum_eq
    simp only [totalCount] at hc ⊢
    rw [this, hc]
    simp [statValues, totalCount]

/-- Frames and tracebacks used by the concrete witnesses below. -/
def frA1 : RawFrame := ("f", "a.py", 1, 10)

def frA2 : RawFrame := ("g", "a.py", 5, 20)

def frB : RawFrame := ("h", "b.py", 1, 1)

def tbA : List RawFrame := [frA1, frA2]

def tbB : List RawFrame := [frB]

theorem grouping_conservation_witness :
    ∃ stats,
      Snapshot.statistics ⟨[(100, tbA), (50, tbA), (30, tbB)], 10, 0⟩ "traceback" false =
        .ok stats ∧
      totalSize stats = (([(100, tbA), (50, tbA), (30, tbB)] : List RawTrace).map Prod.fst).sum ∧
      totalCount stats = ([(100, tbA), (50, tbA), (30, tbB)] : List RawTrace).length :=
  grouping_conservation [(100, tbA), (50, tbA), (30, tbB)] 10 0 (by decide)

theorem groupCumFrames_count (key_type : String) (size : Int) (frames : List RawFrame)
    (stats : List (Traceback × Statistic)) :
    totalCount (statValues (groupCumFrames key_type size frames stats)) =
      totalCount (statValues stats) + frames.length := by
  induction frames generalizing stats with
  | nil => simp [groupCumFrames]
  | cons f rest ih =>
    have hstep : groupCumFrames key_type size (f :: rest) stats =
        groupCumFrames key_type size rest (addToStats stats (deriveKeyCum key_type f) size) := rfl
    rw [hstep, ih, addToStats_count]
    simp only [List.length_cons]
    push_cast
    omega

theorem groupCum_count (key_type : String) (traces : List RawTrace)
    (stats : List (Traceback × Statistic)) :
    totalCount (statValues (groupCum key_type traces stats)) =
      totalCount (statValues stats) + (traces.map (fun t => (t.2.length : Int))).sum := by
  induction traces generalizing stats with
  | nil => simp [groupCum]
  | cons t rest ih =>
    have hstep : groupCum key_type (t :: rest) stats =
        groupCum key_type rest (groupCumFrames key_type t.1 t.2 stats) := rfl
    rw [hstep, ih, groupCumFrames_count]
    simp only [List.map_cons, List.sum_cons]
    omega

theorem sum_tb_lengths_ge (l : List RawTrace) (h : ∀ t ∈ l, t.2 ≠ []) :
    (l.length : Int) ≤ (l.map (fun t => (t.2.length : Int))).sum ∧
      ((l.map (fun t => (t.2.length : Int))).sum = l.length ↔
        ∀ t ∈ l, t.2.length = 1) := by
  induction l with
  | nil => simp
  | cons t rest ih =>
    obtain ⟨ih1, ih2⟩ := ih (fun t ht => h t (by simp [ht]))
    have hlen : 1 ≤ t.2.length := by
      have := h t (by simp)
      cases hd : t.2 with
      | nil => exact absurd hd this
      | cons a as => simp [hd]
    constructor
    · simp only [List.map_cons, List.sum_cons, List.length_cons]
      push_cast
      omega
    · simp only [List.map_cons, List.sum_cons, List.length_cons, List.forall_mem_cons]
      constructor
      · intro heq
        have hrest : (rest.map (fun t => (t.2.length : Int))).sum = rest.length := by
          push_cast at heq
          omega
        have hone : t.2.length = 1 := by
          have := ih2.mpr
          push_cast at heq
          omega
        exact ⟨hone, ih2.mp hrest⟩
      · intro ⟨h1, h2⟩
        have := ih2.mpr h2
        push_cast
        omega

/-- C7 counterexample: a snapshot holding one depth-0 trace. Cumulative
"lineno" statistics are empty (total count 0) while non-cumulative
statistics hold one entry with count 1, so the claimed inequality
"cumulative count sum >= non-cumulative count sum" fails. -/
theorem cumulative_superset_counterexample :
    Snapshot.statistics ⟨[(5, [])], 1, 0⟩ "lineno" true = .ok [] ∧
    Snapshot.statistics ⟨[(5, [])], 1, 0⟩ "lineno" false = .ok [⟨⟨[]⟩, 5, 1⟩] ∧
    totalCount ([] : List Statistic) < totalCount [(⟨⟨[]⟩, 5, 1⟩ : Statistic)] := by
  refine ⟨?_, ?_, by decide⟩ <;> rw [statistics_eq_raw _ _ _ (by decide)] <;> decide

/-- C7 (amended): for a snapshot with `sample_rate <= 1` all of whose
tracebacks are non-empty, the "lineno" cumulative count total is at least
the non-cumulative count total, with equality exactly when every
traceback has depth 1. (The amendment adds the non-empty-traceback
hypothesis: a depth-0 trace contributes 1 to the non-cumulative total but
0 to the cumulative one, refuting the original claim.) -/
theorem cumulative_superset_amended (traces : List RawTrace) (limit rate : Int)
    (hrate : rate ≤ 1) (hne : ∀ t ∈ traces, t.2 ≠ []) :
    ∃ cs ns,
      Snapshot.statistics ⟨traces, limit, rate⟩ "lineno" true = .ok cs ∧
      Snapshot.statistics ⟨traces, limit, rate⟩ "lineno" false = .ok ns ∧
      totalCount ns ≤ totalCount cs ∧
      (totalCount cs = totalCount ns ↔ ∀ t ∈ traces, t.2.length = 1) := by
  have hcum : groupByRaw "lineno" true traces = .ok (groupCum "lineno" traces []) := by
    simp [groupByRaw]
  obtain ⟨out, hout, _, hc⟩ :=
    groupNoncum_ok_sums "lineno" traces []
      (fun t _ => ⟨Traceback.ofCapture (t.2.take 1), by simp [deriveKey]⟩)
  have hnoncum : groupByRaw "lineno" false traces = .ok out := by
    have : groupByRaw "lineno" false traces = groupNoncum "lineno" traces [] := by
      simp [groupByRaw]
    rw [this, hout]
  refine ⟨List.insertionSort statGE (statValues (groupCum "lineno" traces [])),
    List.insertionSort statGE (statValues out), ?_, ?_, ?_, ?_⟩
  · rw [statistics_eq_raw _ _ _ hrate]
    simp [statisticsRaw, hcum, Except.map, statValues]
  · rw [statistics_eq_raw _ _ _ hrate]
    simp [statisticsRaw, hnoncum, Except.map, statValues]
  · have hpc := ((List.perm_insertionSort statGE
      (statValues (groupCum "lineno" traces []))).map Statistic.count).sum_eq
    have hpn := ((List.perm_insertionSort statGE (statValues out)).map Statistic.count).sum_eq
    have h1 := groupCum_count "lineno" traces []
    have h2 := (sum_tb_lengths_ge traces hne).1
    simp only [totalCount] at hc h1 ⊢
    rw [hpc, hpn, h1, hc]
    simp only [statValues, List.map_nil, totalCount, List.sum_nil]
    omega
  · have hpc := ((List.perm_insertionSort statGE
      (statValues (groupCum "lineno" traces []))).map Statistic.count).sum_eq
    have hpn := ((List.perm_insertionSort statGE (statValues out)).map Statistic.count).sum_eq
    have h1 := groupCum_count "lineno" traces []
    have h2 := (sum_tb_lengths_ge traces hne).2
    simp only [totalCount] at hc h1 ⊢
    rw [hpc, hpn, h1, hc]
    simp only [statValues, List.map_nil, totalCount, List.sum_nil]
    rw [zero_add, zero_add]
    exact h2

theorem cumulative_superset_amended_witness :
    ∃ cs ns,
      Snapshot.statistics ⟨[(100, tbA), (30, tbB)], 10, 0⟩ "lineno" true = .ok cs ∧
      Snapshot.statistics ⟨[(100, tbA), (30, tbB)], 10, 0⟩ "lineno" false = .ok ns ∧
      totalCount ns ≤ totalCount cs ∧
      (totalCount cs = totalCount ns ↔
        ∀ t ∈ ([(100, tbA), (30, tbB)] : List RawTrace), t.2.length = 1) :=
  cumulative_superset_amended [(100, tbA), (30, tbB)] 10 0 (by decide) (by decide)

theorem popFirst_filter_other (key tb₀ : Traceback) (hne : key ≠ tb₀)
    (l : List (Traceback × Statistic)) :
    ((popFirst key l).2).filter (fun p => decide (p.1 = tb₀)) =
      l.filter (fun p => decide (p.1 = tb₀)) := by
  induction l with
  | nil => simp [popFirst]
  | cons p rest ih =>
    obtain ⟨k, st⟩ := p
    by_cases hk : k = key
    · have hk0 : ¬ (k = tb₀) := by rw [hk]; exact hne
      simp [popFirst, hk, List.filter_cons, hk0, hne]
    · by_cases h0 : k = tb₀
      · simp [popFirst, hk, List.filter_cons, h0, ih, Ne.symm hne]
      · simp [popFirst, hk, List.filter_cons, h0, ih]

theorem compare_old_only (ng og : List (Traceback × Statistic)) (tb₀ : Traceback)
    (st : Statistic) (hng : ∀ p ∈ ng, p.1 ≠ tb₀)
    (hog : og.filter (fun p => decide (p.1 = tb₀)) = [(tb₀, st)]) :
    (compare_grouped_stats og ng).filter (fun d => decide (d.traceback = tb₀)) =
      [⟨tb₀, 0, -st.size, 0, -st.count⟩] := by
  induction ng generalizing og with
  | nil =>
    simp only [compare_grouped_stats]
    rw [List.filter_map]
    have hfun : ((fun d : StatisticDiff => decide (d.traceback = tb₀)) ∘
        (fun p : Traceback × Statistic => (⟨p.1, 0, -p.2.size, 0, -p.2.count⟩ : StatisticDiff))) =
        fun p : Traceback × Statistic => decide (p.1 = tb₀) := by
      funext p
      rfl
    rw [hfun, hog]
    rfl
  | cons q rest ih =>
    obtain ⟨tb, stq⟩ := q
    have htb : tb ≠ tb₀ := hng (tb, stq) (by simp)
    rcases hpop : popFirst tb og with ⟨found, og'⟩
    cases found with
    | some previous =>
      have hstep : compare_grouped_stats og ((tb, stq) :: rest) =
          ⟨tb, stq.size, stq.size - previous.size, stq.count, stq.count - previous.count⟩ ::
            compare_grouped_stats og' rest := by
        simp [compare_grouped_stats, hpop]
      rw [hstep, List.filter_cons]
      have : decide ((⟨tb, stq.size, stq.size - previous.size, stq.count,
          stq.count - previous.count⟩ : StatisticDiff).traceback = tb₀) = false := by
        simp [htb]
      rw [this]
      simp only [Bool.false_eq_true, if_false]
      have hog' : og'.filter (fun p => decide (p.1 = tb₀)) = [(tb₀, st)] := by
        have := popFirst_filter_other tb tb₀ htb og
        rw [hpop] at this
        simpa using this.trans hog
      exact ih og' (fun p hp => hng p (by simp [hp])) hog'
    | none =>
      have hstep : compare_grouped_stats og ((tb, stq) :: rest) =
          ⟨tb, stq.size, stq.size, stq.count, stq.count⟩ :: compare_grouped_stats og rest := by
        simp [compare_grouped_stats, hpop]
      rw [hstep, List.filter_cons]
      have : decide ((⟨tb, stq.size, stq.size, stq.count, stq.count⟩ :
          StatisticDiff).traceback = tb₀) = false := by
        simp [htb]
      rw [this]
      simp only [Bool.false_eq_true, if_false]
      exact ih og (fun p hp => hng p (by simp [hp])) hog

/-- The frame used in the concrete diff scenario. -/
def frX : RawFrame := ("X", "x.py", 1, 2)

/-- C4: in compare_to, a grouping key present only in the old snapshot's
grouping yields exactly one StatisticDiff with size 0, count 0 and diffs
equal to minus the old statistic's size and count; concretely, comparing
an empty new snapshot against an old snapshot with one trace of size 10
yields the single diff (size=0, size_diff=-10, count=0, count_diff=-1). -/
theorem compare_to_old_only_key :
    (∀ (s old : Snapshot) (key_type : String) (cumulative : Bool)
       (ng og : List (Traceback × Statistic)) (tb₀ : Traceback) (st : Statistic),
       s.group_by key_type cumulative = .ok ng →
       old.group_by key_type cumulative = .ok og →
       (∀ p ∈ ng, p.1 ≠ tb₀) →
       og.filter (fun p => decide (p.1 = tb₀)) = [(tb₀, st)] →
       ∃ res, s.compare_to old key_type cumulative = .ok res ∧
         res.filter (fun d => decide (d.traceback = tb₀)) =
           [⟨tb₀, 0, -st.size, 0, -st.count⟩]) ∧
    Snapshot.compare_to ⟨[], 10, 0⟩ ⟨[(10, [frX])], 10, 0⟩ "traceback" false =
      .ok [⟨Traceback.ofCapture [frX], 0, -10, 0, -1⟩] := by
  constructor
  · intro s old key_type cumulative ng og tb₀ st hg ho hng hog
    refine ⟨List.insertionSort diffGE (compare_grouped_stats og ng), ?_, ?_⟩
    · simp [Snapshot.compare_to, hg, ho, except_bind_ok]
    · have hperm := (List.perm_insertionSort diffGE
        (compare_grouped_stats og ng)).filter (fun d => decide (d.traceback = tb₀))
      rw [compare_old_only ng og tb₀ st hng hog] at hperm
      exact List.perm_singleton.mp hperm
  · rw [compare_to_eq_raw _ _ _ _ (by decide) (by decide)]
    decide

theorem compare_to_old_only_key_witness :
    ∃ res,
      Snapshot.compare_to ⟨[], 10, 0⟩ ⟨[(10, [frX])], 10, 0⟩ "traceback" false = .ok res ∧
      res.filter (fun d => decide (d.traceback = Traceback.ofCapture [frX])) =
        [⟨Traceback.ofCapture [frX], 0,
          -(⟨Traceback.ofCapture [frX], 10, 1⟩ : Statistic).size, 0,
          -(⟨Traceback.ofCapture [frX], 10, 1⟩ : Statistic).count⟩] :=
  compare_to_old_only_key.1 ⟨[], 10, 0⟩ ⟨[(10, [frX])], 10, 0⟩ "traceback" false
    [] [(Traceback.ofCapture [frX], ⟨Traceback.ofCapture [frX], 10, 1⟩)]
    (Traceback.ofCapture [frX]) ⟨Traceback.ofCapture [frX], 10, 1⟩
    (by rw [group_by_eq_raw _ _ _ (by decide)]; decide)
    (by rw [group_by_eq_raw _ _ _ (by decide)]; decide)
    (by simp)
    (by decide)

/-- C5: sampling-bias correction is the identity when `sample_rate <= 1`
or the statistic is empty; for `sample_rate > 1` and a non-empty
statistic the corrected count is at least the raw count. -/
theorem sampling_correction (s : Snapshot) (stat : Statistic) :
    ((s.sample_rate ≤ 1 ∨ stat.count = 0 ∨ stat.size = 0) →
      s.scale_heap_sample stat = stat) ∧
    (1 < s.sample_rate → 0 < stat.count → 0 < stat.size →
      stat.count ≤ (s.scale_heap_sample stat).count) := by
  constructor
  · intro h
    rcases h with h | h
    · exact scale_heap_sample_of_rate_le_one s stat h
    · unfold Snapshot.scale_heap_sample
      rw [if_pos h]
  · intro hrate hcount hsize
    have h0 : ¬ (stat.count = 0 ∨ stat.size = 0) := by omega
    have h1 : ¬ (s.sample_rate ≤ 1) := by omega
    unfold Snapshot.scale_heap_sample
    rw [if_neg h0, if_neg h1]
    have hcountR : (0 : ℝ) < (stat.count : ℝ) := by exact_mod_cast hcount
    have hsizeR : (0 : ℝ) < (stat.size : ℝ) := by exact_mod_cast hsize
    have hrateR : (0 : ℝ) < (s.sample_rate : ℝ) := by
      have : (0 : Int) < s.sample_rate := by omega
      exact_mod_cast this
    have hx : 0 < ((stat.size : ℝ) / (stat.count : ℝ)) / (s.sample_rate : ℝ) :=
      div_pos (div_pos hsizeR hcountR) hrateR
    have hexp : Real.exp (-(((stat.size : ℝ) / (stat.count : ℝ)) / (s.sample_rate : ℝ))) < 1 :=
      Real.exp_lt_one_iff.mpr (by linarith)
    have hexp0 : 0 < Real.exp (-(((stat.size : ℝ) / (stat.count : ℝ)) / (s.sample_rate : ℝ))) :=
      Real.exp_pos _
    have hd0 : 0 < 1 - Real.exp (-(((stat.size : ℝ) / (stat.count : ℝ)) / (s.sample_rate : ℝ))) := by
      linarith
    have hd1 : 1 - Real.exp (-(((stat.size : ℝ) / (stat.count : ℝ)) / (s.sample_rate : ℝ))) ≤ 1 := by
      linarith
    have hscale : 1 ≤ scaleFactor s.sample_rate stat.size stat.count := by
      unfold scaleFactor
      exact one_le_one_div hd0 hd1
    have hmul : (stat.count : ℝ) ≤
        scaleFactor s.sample_rate stat.size stat.count * (stat.count : ℝ) :=
      le_mul_of_one_le_left (le_of_lt hcountR) hscale
    have hnn : (0 : ℝ) ≤ scaleFactor s.sample_rate stat.size stat.count * (stat.count : ℝ) := by
      linarith
    show stat.count ≤ pyTrunc (scaleFactor s.sample_rate stat.size stat.count * (stat.count : ℝ))
    unfold pyTrunc
    rw [if_pos hnn]
    exact Int.le_floor.mpr hmul

theorem sampling_correction_witness :
    Snapshot.scale_heap_sample ⟨[], 5, 1⟩ ⟨⟨[]⟩, 7, 2⟩ = ⟨⟨[]⟩, 7, 2⟩ ∧
    (2 : Int) ≤ (Snapshot.scale_heap_sample ⟨[], 5, 5⟩ ⟨⟨[]⟩, 20, 2⟩).count :=
  ⟨(sampling_correction ⟨[], 5, 1⟩ ⟨⟨[]⟩, 7, 2⟩).1 (Or.inl (by decide)),
   (sampling_correction ⟨[], 5, 5⟩ ⟨⟨[]⟩, 20, 2⟩).2 (by decide) (by decide) (by decide)⟩

/-- The boolean `Filter._match_traceback` returns when it does not raise
(single-frame filters on an empty traceback raise `IndexError` instead;
there the value is fixed to `false` and never used). -/
def matchTracebackPure (f : Filter) (tb : List RawFrame) : Bool :=
  if f.all_frames then
    (if tb.any (fun fr => f.match_frame_raw fr.filename fr.lineno) then f.inclusive
     else !f.inclusive)
  else
    match tb with
    | [] => false
    | fr :: _ => f.match_frame fr.filename fr.lineno

theorem match_traceback_eq_pure (f : Filter) (tb : List RawFrame)
    (h : tb ≠ [] ∨ f.all_frames = true) :
    f.match_traceback tb = .ok (matchTracebackPure f tb) := by
  unfold Filter.match_traceback matchTracebackPure
  by_cases haf : f.all_frames = true
  · rw [if_pos haf, if_pos haf]
  · rw [if_neg haf, if_neg haf]
    cases tb with
    | nil =>
      rcases h with h | h
      · exact absurd rfl h
      · exact absurd h haf
    | cons fr rest => rfl

theorem filter_trace_single_incl (f : Filter) (t : RawTrace)
    (h : t.2 ≠ [] ∨ f.all_frames = true) :
    filter_trace [f] [] t = .ok (matchTracebackPure f t.2) := by
  unfold filter_trace anyMatch
  rw [match_traceback_eq_pure f t.2 h]
  cases hm : matchTracebackPure f t.2 <;>
    simp [except_bind_ok, anyMatch, pure, Except.pure]

theorem filter_trace_single_excl (f : Filter) (t : RawTrace)
    (h : t.2 ≠ [] ∨ f.all_frames = true) :
    filter_trace [] [f] t = .ok (matchTracebackPure f t.2) := by
  unfold filter_trace anyNotMatch
  rw [match_traceback_eq_pure f t.2 h]
  cases hm : matchTracebackPure f t.2 <;>
    simp [except_bind_ok, anyNotMatch, pure, Except.pure]

theorem filterTracesList_eq_filter (incl excl : List Filter) (p : RawTrace → Bool)
    (l : List RawTrace) (h : ∀ t ∈ l, filter_trace incl excl t = .ok (p t)) :
    filterTracesList incl excl l = .ok (l.filter p) := by
  induction l with
  | nil => rfl
  | cons t rest ih =>
    simp only [filterTracesList, h t (by simp), ih (fun t ht => h t (by simp [ht])),
      except_bind_ok, List.filter_cons]
    cases hp : p t <;> simp [pure, Except.pure]

theorem filter_traces_single (s : Snapshot) (f : Filter)
    (h : ∀ t ∈ s.traces, t.2 ≠ [] ∨ f.all_frames = true) :
    s.filter_traces (.iterable [f]) =
      .ok ⟨s.traces.filter (fun t => matchTracebackPure f t.2),
        s.traceback_limit, s.sample_rate⟩ := by
  unfold Snapshot.filter_traces
  cases hf : f.inclusive
  · simp only [List.isEmpty_cons, List.filter, hf, if_neg, Bool.false_eq_true,
      not_false_eq_true, Bool.not_false]
    rw [filterTracesList_eq_filter [] [f] (fun t => matchTracebackPure f t.2) s.traces
      (fun t ht => filter_trace_single_excl f t (h t ht))]
    rfl
  · simp only [List.isEmpty_cons, List.filter, hf, Bool.not_true]
    rw [filterTracesList_eq_filter [f] [] (fun t => matchTracebackPure f t.2) s.traces
      (fun t ht => filter_trace_single_incl f t (h t ht))]
    rfl

theorem matchTracebackPure_neg (fp : String) (fl : Option Int) (fa : Bool)
    (tb : List RawFrame) (h : tb ≠ [] ∨ fa = true) :
    matchTracebackPure ⟨false, fp, fl, fa⟩ tb = !(matchTracebackPure ⟨true, fp, fl, fa⟩ tb) := by
  have hraw : ∀ fn l, Filter.match_frame_raw ⟨false, fp, fl, fa⟩ fn l =
      Filter.match_frame_raw ⟨true, fp, fl, fa⟩ fn l := fun fn l => rfl
  unfold matchTracebackPure
  cases fa with
  | true =>
    simp only [if_pos]
    have hany : (tb.any fun fr =>
        Filter.match_frame_raw ⟨false, fp, fl, true⟩ fr.filename fr.lineno) =
        (tb.any fun fr =>
          Filter.match_frame_raw ⟨true, fp, fl, true⟩ fr.filename fr.lineno) := rfl
    rw [hany]
    cases tb.any fun fr =>
        Filter.match_frame_raw ⟨true, fp, fl, true⟩ fr.filename fr.lineno <;> rfl
  | false =>
    cases tb with
    | nil =>
      rcases h with h | h
      · exact absurd rfl h
      · exact absurd h (by simp)
    | cons fr rest =>
      simp only [Bool.false_eq_true, if_false]
      unfold Filter.match_frame
      rw [hraw]
      cases Filter.match_frame_raw ⟨true, fp, fl, false⟩ fr.filename fr.lineno <;> rfl

theorem matchTracebackPure_make_not (pat : String) (ln : Option Int) (af : Bool)
    (tb : List RawFrame) (h : tb ≠ [] ∨ af = true) :
    matchTracebackPure (Filter.make false pat ln af) tb =
      !(matchTracebackPure (Filter.make true pat ln af) tb) :=
  matchTracebackPure_neg (normalize_filename pat) ln af tb h

/-- C6: for a snapshot whose traces all have non-empty raw tracebacks and
a fixed (pattern, lineno, all_frames), filtering with the inclusive
filter and filtering with the exclusive filter split the trace multiset
into two disjoint parts whose concatenation is a permutation of the
original traces. -/
theorem inclusive_exclusive_complementarity (s : Snapshot) (pat : String)
    (ln : Option Int) (af : Bool) (h : ∀ t ∈ s.traces, t.2 ≠ []) :
    ∃ s₁ s₂,
      s.filter_traces (.iterable [Filter.make true pat ln af]) = .ok s₁ ∧
      s.filter_traces (.iterable [Filter.make false pat ln af]) = .ok s₂ ∧
      (s₁.traces ++ s₂.traces).Perm s.traces ∧
      (∀ t, t ∈ s₁.traces → t ∉ s₂.traces) := by
  have h1 := filter_traces_single s (Filter.make true pat ln af)
    (fun t ht => Or.inl (h t ht))
  have h2 := filter_traces_single s (Filter.make false pat ln af)
    (fun t ht => Or.inl (h t ht))
  have hcongr : s.traces.filter (fun t => matchTracebackPure (Filter.make false pat ln af) t.2) =
      s.traces.filter (fun t => !(matchTracebackPure (Filter.make true pat ln af) t.2)) :=
    List.filter_congr (fun t ht => matchTracebackPure_make_not pat ln af t.2 (Or.inl (h t ht)))
  refine ⟨_, _, h1, h2, ?_, ?_⟩
  · simp only [hcongr]
    exact List.filter_append_perm
      (fun t => matchTracebackPure (Filter.make true pat ln af) t.2) s.traces
  · intro t ht1 ht2
    simp only [hcongr] at ht2
    simp only [List.mem_filter] at ht1 ht2
    rw [ht1.2] at ht2
    exact absurd ht2.2 (by simp)

theorem inclusive_exclusive_complementarity_witness :
    ∃ s₁ s₂,
      Snapshot.filter_traces ⟨[(3, [frX])], 5, 0⟩
        (.iterable [Filter.make true "*" none false]) = .ok s₁ ∧
      Snapshot.filter_traces ⟨[(3, [frX])], 5, 0⟩
        (.iterable [Filter.make false "*" none false]) = .ok s₂ ∧
      (s₁.traces ++ s₂.traces).Perm (Snapshot.mk [(3, [frX])] 5 0).traces ∧
      (∀ t, t ∈ s₁.traces → t ∉ s₂.traces) :=
  inclusive_exclusive_complementarity ⟨[(3, [frX])], 5, 0⟩ "*" none false (by decide)

/-- Errors possibly produced by a piece of embedded code are all
`IndexError` (used to separate them from the argument-check errors). -/
def onlyIndexErr {α : Type} (e : Except PyErr α) : Prop :=
  ∀ er, e = .error er → er = .indexError

theorem onlyIndexErr_ok {α : Type} (x : α) : onlyIndexErr (.ok x : Except PyErr α) := by
  intro er h
  cases h

theorem onlyIndexErr_bind {α β : Type} (a : Except PyErr α) (f : α → Except PyErr β)
    (ha : onlyIndexErr a) (hf : ∀ x, onlyIndexErr (f x)) : onlyIndexErr (a >>= f) := by
  cases a with
  | error e =>
    intro er h
    rw [except_bind_err] at h
    injection h with h
    exact ha er (by rw [h])
  | ok x =>
    rw [except_bind_ok]
    exact hf x

theorem onlyIndexErr_match_traceback (f : Filter) (tb : List RawFrame) :
    onlyIndexErr (f.match_traceback tb) := by
  unfold Filter.match_traceback
  by_cases haf : f.all_frames = true
  · rw [if_pos haf]
    exact onlyIndexErr_ok _
  · rw [if_neg haf]
    cases tb with
    | nil =>
      intro er h
      cases h
      rfl
    | cons fr rest => exact onlyIndexErr_ok _

theorem onlyIndexErr_anyMatch (fs : List Filter) (tb : List RawFrame) :
    onlyIndexErr (anyMatch fs tb) := by
  induction fs with
  | nil => exact onlyIndexErr_ok _
  | cons f rest ih =>
    simp only [anyMatch]
    refine onlyIndexErr_bind _ _ (onlyIndexErr_match_traceback f tb) ?_
    intro b
    cases b
    · exact ih
    · exact onlyIndexErr_ok _

theorem onlyIndexErr_anyNotMatch (fs : List Filter) (tb : List RawFrame) :
    onlyIndexErr (anyNotMatch fs tb) := by
  induction fs with
  | nil => exact onlyIndexErr_ok _
  | cons f rest ih =>
    simp only [anyNotMatch]
    refine onlyIndexErr_bind _ _ (onlyIndexErr_match_traceback f tb) ?_
    intro b
    cases b
    · exact onlyIndexErr_ok _
    · exact ih

theorem onlyIndexErr_filter_trace (incl excl : List Filter) (t : RawTrace) :
    onlyIndexErr (filter_trace incl excl t) := by
  unfold filter_trace
  refine onlyIndexErr_bind _ _ ?_ ?_
  · by_cases h : incl.isEmpty
    · rw [if_pos h]
      exact onlyIndexErr_ok _
    · rw [if_neg h]
      exact onlyIndexErr_anyMatch incl t.2
  · intro keep
    by_cases hk : keep = false
    · rw [if_pos hk]
      exact onlyIndexErr_ok _
    · rw [if_neg hk]
      refine onlyIndexErr_bind _ _ ?_ ?_
      · by_cases h : excl.isEmpty
        · rw [if_pos h]
          exact onlyIndexErr_ok _
        · rw [if_neg h]
          exact onlyIndexErr_anyNotMatch excl t.2
      · intro drop
        exact onlyIndexErr_ok _

theorem onlyIndexErr_filterTracesList (incl excl : List Filter) (l : List RawTrace) :
    onlyIndexErr (filterTracesList incl excl l) := by
  induction l with
  | nil => exact onlyIndexErr_ok _
  | cons t rest ih =>
    simp only [filterTracesList]
    refine onlyIndexErr_bind _ _ (onlyIndexErr_filter_trace incl excl t) ?_
    intro keep
    refine onlyIndexErr_bind _ _ ih ?_
    intro others
    exact onlyIndexErr_ok _

theorem onlyIndexErr_deriveKey (key_type : String) (tb : List RawFrame) :
    onlyIndexErr (deriveKey key_type tb) := by
  unfold deriveKey
  by_cases h1 : key_type = "traceback"
  · rw [if_pos h1]
    exact onlyIndexErr_ok _
  · rw [if_neg h1]
    by_cases h2 : key_type = "lineno"
    · rw [if_pos h2]
      exact onlyIndexErr_ok _
    · rw [if_neg h2]
      cases tb with
      | nil =>
        intro er h
        cases h
        rfl
      | cons fr rest => exact onlyIndexErr_ok _

theorem onlyIndexErr_groupNoncum (key_type : String) (traces : List RawTrace)
    (stats : List (Traceback × Statistic)) :
    onlyIndexErr (groupNoncum key_type traces stats) := by
  induction traces generalizing stats with
  | nil => exact onlyIndexErr_ok _
  | cons t rest ih =>
    obtain ⟨size, tb⟩ := t
    simp only [groupNoncum]
    refine onlyIndexErr_bind _ _ (onlyIndexErr_deriveKey key_type tb) ?_
    intro k
    exact ih _

theorem except_map_error_iff {α β : Type} (f : α → β) (x : Except PyErr α) (e : PyErr) :
    Except.map f x = .error e ↔ x = .error e := by
  cases x <;> simp [Except.map]

theorem groupByRaw_valueError_iff (key_type : String) (cumulative : Bool)
    (traces : List RawTrace) :
    groupByRaw key_type cumulative traces = .error .valueError ↔
      ((key_type ≠ "traceback" ∧ key_type ≠ "filename" ∧ key_type ≠ "lineno") ∨
        (cumulative = true ∧ key_type = "traceback")) := by
  unfold groupByRaw
  by_cases h1 : key_type ≠ "traceback" ∧ key_type ≠ "filename" ∧ key_type ≠ "lineno"
  · rw [if_pos h1]
    simp [h1]
  · rw [if_neg h1]
    by_cases h2 : cumulative = true ∧ key_type ≠ "lineno" ∧ key_type ≠ "filename"
    · rw [if_pos (by exact_mod_cast h2)]
      constructor
      · intro _
        right
        refine ⟨h2.1, ?_⟩
        by_contra htb
        exact h1 ⟨htb, h2.2.2, h2.2.1⟩
      · intro _
        rfl
    · rw [if_neg (by exact_mod_cast h2)]
      by_cases hc : cumulative = true
      · rw [if_pos hc]
        constructor
        · intro h
          cases h
        · intro h
          rcases h with h | h
          · exact absurd h h1
          · exact absurd ⟨hc, by rw [h.2]; exact ⟨by decide, by decide⟩⟩ h2
      · rw [if_neg hc]
        constructor
        · intro h
          have := onlyIndexErr_groupNoncum key_type traces [] .valueError h
          cases this
        · intro h
          rcases h with h | h
          · exact absurd h h1
          · exact absurd h.1 hc

theorem group_by_valueError_iff (s : Snapshot) (key_type : String) (cumulative : Bool) :
    s.group_by key_type cumulative = .error .valueError ↔
      ((key_type ≠ "traceback" ∧ key_type ≠ "filename" ∧ key_type ≠ "lineno") ∨
        (cumulative = true ∧ key_type = "traceback")) := by
  unfold Snapshot.group_by
  rw [except_map_error_iff]
  exact groupByRaw_valueError_iff key_type cumulative s.traces

/-- C8: `statistics` and `compare_to` fail with the invalid-argument
error (`ValueError`) exactly when the key type is not one of the three
legal ones or cumulative mode is combined with `"traceback"`; the
equivalence holds uniformly in the trace data, so the failure is decided
before any aggregation touches a trace; `filter_traces` fails with the
invalid-argument error (`TypeError`) exactly when its argument is not
iterable. (Snapshots are immutable values of the embedding, so the
receiver is unchanged by construction.) -/
theorem invalid_argument_errors (traces : List RawTrace) (limit rate : Int)
    (key_type : String) (cumulative : Bool) (old : Snapshot) :
    (Snapshot.statistics ⟨traces, limit, rate⟩ key_type cumulative = .error .valueError ↔
      ((key_type ≠ "traceback" ∧ key_type ≠ "filename" ∧ key_type ≠ "lineno") ∨
        (cumulative = true ∧ key_type = "traceback"))) ∧
    (Snapshot.compare_to ⟨traces, limit, rate⟩ old key_type cumulative = .error .valueError ↔
      ((key_type ≠ "traceback" ∧ key_type ≠ "filename" ∧ key_type ≠ "lineno") ∨
        (cumulative = true ∧ key_type = "traceback"))) ∧
    (∀ arg : FiltersArg,
      Snapshot.filter_traces ⟨traces, limit, rate⟩ arg = .error .typeError ↔
        arg = .notIterable) := by
  refine ⟨?_, ?_, ?_⟩
  · unfold Snapshot.statistics
    rw [except_map_error_iff]
    exact group_by_valueError_iff _ key_type cumulative
  · unfold Snapshot.compare_to
    cases hg : Snapshot.group_by ⟨traces, limit, rate⟩ key_type cumulative with
    | error e =>
      rw [except_bind_err]
      constructor
      · intro h
        injection h with h
        rw [h] at hg
        exact (group_by_valueError_iff _ key_type cumulative).mp hg
      · intro h
        have := (group_by_valueError_iff (Snapshot.mk traces limit rate)
          key_type cumulative).mpr h
        rw [hg] at this
        injection this with h'
        rw [h']
    | ok ng =>
      rw [except_bind_ok]
      cases ho : old.group_by key_type cumulative with
      | error e =>
        rw [except_bind_err]
        constructor
        · intro h
          injection h with h
          rw [h] at ho
          exact (group_by_valueError_iff old key_type cumulative).mp ho
        · intro h
          have := (group_by_valueError_iff (Snapshot.mk traces limit rate)
            key_type cumulative).mpr h
          rw [hg] at this
          cases this
      | ok og =>
        rw [except_bind_ok]
        constructor
        · intro h
          cases h
        · intro h
          have := (group_by_valueError_iff (Snapshot.mk traces limit rate)
            key_type cumulative).mpr h
          rw [hg] at this
          cases this
  · intro arg
    cases arg with
    | notIterable => simp [Snapshot.filter_traces]
    | iterable fs =>
      simp only [Snapshot.filter_traces]
      constructor
      · intro h
        by_cases he : fs.isEmpty
        · rw [if_pos he] at h
          cases h
        · rw [if_neg he] at h
          have honly := onlyIndexErr_bind _ _
            (onlyIndexErr_filterTracesList (fs.filter (fun f => f.inclusive))
              (fs.filter (fun f => !f.inclusive)) traces)
            (fun x => onlyIndexErr_ok (α := Snapshot) ⟨x, limit, rate⟩)
          have := honly .typeError h
          cases this
      · intro h
        cases h

theorem anyMatch_ok_of_all_frames (fs : List Filter) (tb : List RawFrame)
    (h : ∀ f ∈ fs, f.all_frames = true) : ∃ b, anyMatch fs tb = .ok b := by
  induction fs with
  | nil => exact ⟨false, rfl⟩
  | cons f rest ih =>
    have hm : f.match_traceback tb = .ok (matchTracebackPure f tb) :=
      match_traceback_eq_pure f tb (Or.inr (h f (by simp)))
    obtain ⟨b, hb⟩ := ih (fun f hf => h f (by simp [hf]))
    cases hmt : matchTracebackPure f tb
    · rw [hmt] at hm
      refine ⟨b, ?_⟩
      simp [anyMatch, hm, except_bind_ok, hb]
    · rw [hmt] at hm
      refine ⟨true, ?_⟩
      simp [anyMatch, hm, except_bind_ok, pure, Except.pure]

theorem anyNotMatch_ok_of_all_frames (fs : List Filter) (tb : List RawFrame)
    (h : ∀ f ∈ fs, f.all_frames = true) : ∃ b, anyNotMatch fs tb = .ok b := by
  induction fs with
  | nil => exact ⟨false, rfl⟩
  | cons f rest ih =>
    have hm : f.match_traceback tb = .ok (matchTracebackPure f tb) :=
      match_traceback_eq_pure f tb (Or.inr (h f (by simp)))
    obtain ⟨b, hb⟩ := ih (fun f hf => h f (by simp [hf]))
    cases hmt : matchTracebackPure f tb
    · rw [hmt] at hm
      refine ⟨true, ?_⟩
      simp [anyNotMatch, hm, except_bind_ok, pure, Except.pure]
    · rw [hmt] at hm
      refine ⟨b, ?_⟩
      simp [anyNotMatch, hm, except_bind_ok, hb]

theorem filter_trace_ok_of_all_frames (incl excl : List Filter) (t : RawTrace)
    (hi : ∀ f ∈ incl, f.all_frames = true) (he : ∀ f ∈ excl, f.all_frames = true) :
    ∃ b, filter_trace incl excl t = .ok b := by
  unfold filter_trace
  by_cases hie : incl.isEmpty
  all_goals by_cases hee : excl.isEmpty
  · exact ⟨true, by simp [hie, hee, except_bind_ok, pure, Except.pure]⟩
  · obtain ⟨b, hb⟩ := anyNotMatch_ok_of_all_frames excl t.2 he
    exact ⟨!b, by simp [hie, hee, hb, except_bind_ok, pure, Except.pure]⟩
  · obtain ⟨b, hb⟩ := anyMatch_ok_of_all_frames incl t.2 hi
    cases b
    · exact ⟨false, by simp [hie, hee, hb, except_bind_ok, pure, Except.pure]⟩
    · exact ⟨true, by simp [hie, hee, hb, except_bind_ok, pure, Except.pure]⟩
  · obtain ⟨b, hb⟩ := anyMatch_ok_of_all_frames incl t.2 hi
    obtain ⟨c, hc⟩ := anyNotMatch_ok_of_all_frames excl t.2 he
    cases b
    · exact ⟨false, by simp [hie, hee, hb, except_bind_ok, pure, Except.pure]⟩
    · exact ⟨!c, by simp [hie, hee, hb, hc, except_bind_ok, pure, Except.pure]⟩

theorem filterTracesList_ok_of_all_frames (incl excl : List Filter) (l : List RawTrace)
    (hi : ∀ f ∈ incl, f.all_frames = true) (he : ∀ f ∈ excl, f.all_frames = true) :
    ∃ out, filterTracesList incl excl l = .ok out := by
  induction l with
  | nil => exact ⟨[], rfl⟩
  | cons t rest ih =>
    obtain ⟨b, hb⟩ := filter_trace_ok_of_all_frames incl excl t hi he
    obtain ⟨out, hout⟩ := ih
    exact ⟨if b then t :: out else out,
      by simp [filterTracesList, hb, hout, except_bind_ok, pure, Except.pure]⟩

theorem groupNoncum_filename_indexError (traces : List RawTrace)
    (stats : List (Traceback × Statistic)) (h : ∃ t ∈ traces, t.2 = []) :
    groupNoncum "filename" traces stats = .error .indexError := by
  induction traces generalizing stats with
  | nil => simp at h
  | cons t rest ih =>
    obtain ⟨size, tb⟩ := t
    cases htb : tb with
    | nil =>
      have hk : deriveKey "filename" ([] : List RawFrame) = .error .indexError := by decide
      subst htb
      simp [groupNoncum, hk, except_bind_err]
    | cons fr r =>
      have hrest : ∃ t ∈ rest, t.2 = [] := by
        rcases h with ⟨t', ht', h2⟩
        rcases List.mem_cons.mp ht' with h3 | h3
        · rw [h3] at h2
          simp only at h2
          rw [htb] at h2
          cases h2
        · exact ⟨t', h3, h2⟩
      subst htb
      have hk : deriveKey "filename" (fr :: r) =
          .ok (Traceback.ofCapture [("", fr.filename, 0, 0)]) := by
        simp [deriveKey]
      simp [groupNoncum, hk, except_bind_ok, ih _ hrest]

theorem filterTracesList_single_frame_indexError (f : Filter) (haf : f.all_frames = false)
    (l : List RawTrace) (h : ∃ t ∈ l, t.2 = []) :
    filterTracesList [f] [] l = .error .indexError := by
  induction l with
  | nil => simp at h
  | cons t rest ih =>
    cases htb : t.2 with
    | nil =>
      have herr : filter_trace [f] [] t = .error .indexError := by
        unfold filter_trace anyMatch
        simp [Filter.match_traceback, haf, htb, except_bind_err]
      simp [filterTracesList, herr, except_bind_err]
    | cons fr r =>
      have hok := filter_trace_single_incl f t (Or.inl (by rw [htb]; simp))
      have hrest : ∃ t ∈ rest, t.2 = [] := by
        rcases h with ⟨t', ht', h2⟩
        rcases List.mem_cons.mp ht' with h3 | h3
        · rw [h3, htb] at h2
          cases h2
        · exact ⟨t', h3, h2⟩
      simp [filterTracesList, hok, except_bind_ok, ih hrest, except_bind_err]

theorem filterTracesList_single_frame_excl_indexError (f : Filter) (haf : f.all_frames = false)
    (l : List RawTrace) (h : ∃ t ∈ l, t.2 = []) :
    filterTracesList [] [f] l = .error .indexError := by
  induction l with
  | nil => simp at h
  | cons t rest ih =>
    cases htb : t.2 with
    | nil =>
      have herr : filter_trace [] [f] t = .error .indexError := by
        unfold filter_trace anyNotMatch
        simp [Filter.match_traceback, haf, htb, except_bind_err, except_bind_ok,
          pure, Except.pure]
      simp [filterTracesList, herr, except_bind_err]
    | cons fr r =>
      have hok := filter_trace_single_excl f t (Or.inl (by rw [htb]; simp))
      have hrest : ∃ t ∈ rest, t.2 = [] := by
        rcases h with ⟨t', ht', h2⟩
        rcases List.mem_cons.mp ht' with h3 | h3
        · rw [h3, htb] at h2
          cases h2
        · exact ⟨t', h3, h2⟩
      simp [filterTracesList, hok, except_bind_ok, ih hrest, except_bind_err]

/-- C9 counterexample: a snapshot holding one depth-0 trace. Grouping by
"filename" and filtering with a single-frame filter raise `IndexError`
instead of completing normally. -/
theorem depth_zero_counterexample :
    Snapshot.statistics ⟨[(5, [])], 1, 0⟩ "filename" false = .error .indexError ∧
    Snapshot.filter_traces ⟨[(5, [])], 1, 0⟩
      (.iterable [Filter.make true "*" none false]) = .error .indexError := by
  constructor
  · rw [statistics_eq_raw _ _ _ (by decide)]
    decide
  · decide

/-- C9 (amended): a depth-0 traceback is legal data, and statistics with
key types "traceback" and "lineno" as well as filtering with all-frames
filters complete normally on any snapshot; but on a snapshot holding a
depth-0 trace, "filename" grouping and single-frame filters (inclusive
or exclusive) raise `IndexError`. (The amendment carves out exactly the
two out-of-bounds branches exhibited by the counterexample.) -/
theorem depth_zero_traceback_amended (s : Snapshot) :
    (∃ r, s.statistics "traceback" false = .ok r) ∧
    (∃ r, s.statistics "lineno" false = .ok r) ∧
    (∀ fs : List Filter, (∀ f ∈ fs, f.all_frames = true) →
      ∃ s', s.filter_traces (.iterable fs) = .ok s') ∧
    ((∃ t ∈ s.traces, t.2 = []) →
      s.statistics "filename" false = .error .indexError ∧
      (∀ f : Filter, f.all_frames = false →
        s.filter_traces (.iterable [f]) = .error .indexError)) := by
  refine ⟨?_, ?_, ?_, ?_⟩
  · obtain ⟨out, hout, _, _⟩ := groupNoncum_ok_sums "traceback" s.traces []
      (fun t _ => ⟨Traceback.ofCapture t.2, rfl⟩)
    have hraw : groupByRaw "traceback" false s.traces = .ok out := by
      have : groupByRaw "traceback" false s.traces = groupNoncum "traceback" s.traces [] := by
        simp [groupByRaw]
      rw [this, hout]
    refine ⟨List.insertionSort statGE ((s.scale_heap_samples out).map Prod.snd), ?_⟩
    simp [Snapshot.statistics, Snapshot.group_by, hraw, Except.map]
  · obtain ⟨out, hout, _, _⟩ := groupNoncum_ok_sums "lineno" s.traces []
      (fun t _ => ⟨Traceback.ofCapture (t.2.take 1), by simp [deriveKey]⟩)
    have hraw : groupByRaw "lineno" false s.traces = .ok out := by
      have : groupByRaw "lineno" false s.traces = groupNoncum "lineno" s.traces [] := by
        simp [groupByRaw]
      rw [this, hout]
    refine ⟨List.insertionSort statGE ((s.scale_heap_samples out).map Prod.snd), ?_⟩
    simp [Snapshot.statistics, Snapshot.group_by, hraw, Except.map]
  · intro fs hall
    by_cases he : fs.isEmpty
    · exact ⟨⟨s.traces, s.traceback_limit, s.sample_rate⟩,
        by simp [Snapshot.filter_traces, he]⟩
    · obtain ⟨out, hout⟩ := filterTracesList_ok_of_all_frames
        (fs.filter (fun f => f.inclusive)) (fs.filter (fun f => !f.inclusive)) s.traces
        (fun f hf => hall f (List.mem_filter.mp hf).1)
        (fun f hf => hall f (List.mem_filter.mp hf).1)
      exact ⟨⟨out, s.traceback_limit, s.sample_rate⟩,
        by simp [Snapshot.filter_traces, he, hout, except_bind_ok, pure, Except.pure]⟩
  · intro hempty
    constructor
    · have hraw : groupByRaw "filename" false s.traces = .error .indexError := by
        have : groupByRaw "filename" false s.traces = groupNoncum "filename" s.traces [] := by
          simp [groupByRaw]
        rw [this]
        exact groupNoncum_filename_indexError s.traces [] hempty
      simp [Snapshot.statistics, Snapshot.group_by, hraw, Except.map]
    · intro f haf
      cases hinc : f.inclusive with
      | false =>
        have hsplit1 : [f].filter (fun f => f.inclusive) = [] := by simp [hinc]
        have hsplit2 : [f].filter (fun f => !f.inclusive) = [f] := by simp [hinc]
        simp only [Snapshot.filter_traces, List.isEmpty_cons, Bool.false_eq_true, if_false,
          hsplit1, hsplit2]
        rw [filterTracesList_single_frame_excl_indexError f haf s.traces hempty,
          except_bind_err]
      | true =>
        have hsplit1 : [f].filter (fun f => f.inclusive) = [f] := by simp [hinc]
        have hsplit2 : [f].filter (fun f => !f.inclusive) = [] := by simp [hinc]
        simp only [Snapshot.filter_traces, List.isEmpty_cons, Bool.false_eq_true, if_false,
          hsplit1, hsplit2]
        rw [filterTracesList_single_frame_indexError f haf s.traces hempty, except_bind_err]

theorem depth_zero_traceback_amended_witness :
    (∃ r, Snapshot.statistics ⟨[(5, [])], 1, 0⟩ "traceback" false = .ok r) ∧
    Snapshot.statistics ⟨[(5, [])], 1, 0⟩ "filename" false = .error .indexError ∧
    Snapshot.filter_traces ⟨[(5, [])], 1, 0⟩
      (.iterable [Filter.make false "*" none false]) = .error .indexError ∧
    (∃ s', Snapshot.filter_traces ⟨[(5, [])], 1, 0⟩
      (.iterable [Filter.make true "*" none true]) = .ok s') :=
  ⟨(depth_zero_traceback_amended ⟨[(5, [])], 1, 0⟩).1,
   ((depth_zero_traceback_amended ⟨[(5, [])], 1, 0⟩).2.2.2 ⟨(5, []), by simp, rfl⟩).1,
   ((depth_zero_traceback_amended ⟨[(5, [])], 1, 0⟩).2.2.2 ⟨(5, []), by simp, rfl⟩).2
     (Filter.make false "*" none false) rfl,
   (depth_zero_traceback_amended ⟨[(5, [])], 1, 0⟩).2.2.1
     [Filter.make true "*" none true] (by decide)⟩

/-- The oldest frame of the two-frame example trace (raw capture order is
most-recent-last, so this frame comes first in the raw tuple). -/
def frOld : RawFrame := ("f", "a.py", 1, 10)

/-- The most-recent frame of the two-frame example trace (last in the raw
tuple, index 0 of the stored `Traceback`). -/
def frNew : RawFrame := ("g", "b.py", 2, 20)

/-- C2 (code evaluation at the failing input): in the stored `Traceback`
of the two-frame trace, index 0 is the most-recent frame (file "b.py"),
yet an inclusive single-frame filter on "b.py" drops the trace while an
inclusive single-frame filter on "a.py" (the oldest frame's file) keeps
it: `filter_traces` tests raw index 0, the oldest frame, not the
most-recent one. -/
theorem filter_tests_oldest_frame :
    (Traceback.ofCapture [frOld, frNew]).get ⟨0, by decide⟩ = Frame.ofRaw frNew ∧
    Snapshot.filter_traces ⟨[(5, [frOld, frNew])], 10, 0⟩
      (.iterable [Filter.make true "b.py" none false]) = .ok ⟨[], 10, 0⟩ ∧
    Snapshot.filter_traces ⟨[(5, [frOld, frNew])], 10, 0⟩
      (.iterable [Filter.make true "a.py" none false]) =
        .ok ⟨[(5, [frOld, frNew])], 10, 0⟩ := by
  refine ⟨by decide, by decide, by decide⟩

/-- C3 (code evaluation at the failing input): non-cumulative grouping of
the two-frame trace keys "lineno" on a one-frame traceback holding the
oldest frame `frOld` (not the most-recent `frNew`), and "filename" on a
synthetic frame with the oldest frame's filename "a.py" (not "b.py"):
`_group_by` reads raw index 0, the oldest frame. -/
theorem grouping_keys_use_oldest_frame :
    Snapshot.statistics ⟨[(5, [frOld, frNew])], 10, 0⟩ "lineno" false =
      .ok [⟨Traceback.ofCapture [frOld], 5, 1⟩] ∧
    Snapshot.statistics ⟨[(5, [frOld, frNew])], 10, 0⟩ "filename" false =
      .ok [⟨Traceback.ofCapture [("", "a.py", 0, 0)], 5, 1⟩] ∧
    RawFrame.filename frNew = "b.py" := by
  refine ⟨?_, ?_, by decide⟩ <;> rw [statistics_eq_raw _ _ _ (by decide)] <;> decide

/-- C10: the `Traceback` constructor reverses its input: length is
preserved and index `i` of the stored sequence is the `Frame` built from
input index `n - 1 - i`. -/
theorem traceback_reverses_input (fs : List RawFrame) :
    (Traceback.ofCapture fs).length = fs.length ∧
    ∀ (i : Nat) (h : i < fs.length),
      (Traceback.ofCapture fs).get ⟨i, by simpa [Traceback.ofCapture] using h⟩ =
        Frame.ofRaw (fs.get ⟨fs.length - 1 - i, by omega⟩) := by
  constructor
  · simp [Traceback.ofCapture, Traceback.length]
  · intro i h
    unfold Traceback.get Traceback.ofCapture
    simp only [List.get_eq_getElem, List.getElem_reverse]

theorem traceback_reverses_input_witness :
    (Traceback.ofCapture [frOld, frNew]).length = 2 ∧
    (Traceback.ofCapture [frOld, frNew]).get ⟨0, by decide⟩ = Frame.ofRaw frNew :=
  ⟨(traceback_reverses_input [frOld, frNew]).1,
   (traceback_reverses_input [frOld, frNew]).2 0 (by decide)⟩
